import Mathlib

set_option maxRecDepth 4000

/-!
Shallow embedding of `src/Solver.py`: the `Grid` class (cells with a
region color and an occupancy flag, the backtracking solver, reset and
undo) together with the recoloring operation the UI performs directly on
a cell, and proofs about the specified behavior.

Conventions: Python's `None` value of `queen_positions` is `Option.none`;
a Python list is a Lean `List` with the same order (appends at the end,
`pop()` from the end).  Machine-level faithfulness notes appear on each
definition.
-/

/-- One board cell, as in class `Cell` (src/Solver.py:3-8). -/
structure Cell where
  row : Nat
  col : Nat
  color : Nat
  contains_queen : Bool
deriving DecidableEq, Repr

/-- The board, as in class `Grid` (src/Solver.py:11-16).  `queen_positions`
is `none` exactly when the Python field holds `None` (which happens after a
failed solve) and `some qs` when it holds the list `qs`. -/
structure Grid where
  grid_size : Nat
  grid : List (List Cell)
  queen_positions : Option (List (Nat × Nat))
  history : List (Nat × Nat × Nat)
deriving DecidableEq, Repr

/-- In-place update of one list element, as Python `l[i].field = v` mutates
the element at index `i`; an out-of-range index leaves the list unchanged
(the source only ever indexes in bounds). -/
def modifyAt : List α → Nat → (α → α) → List α
  | [], _, _ => []
  | x :: xs, 0, f => f x :: xs
  | x :: xs, i + 1, f => x :: modifyAt xs i f

/-- Lookup `rows[r][c]`, totalised with `none` out of bounds. -/
def cellAt? (rows : List (List Cell)) (r c : Nat) : Option Cell :=
  (rows[r]?).bind fun rowL => rowL[c]?

/-- Color of the cell at `(r, c)` (0 out of bounds; the source only reads
in bounds). -/
def colorIn (rows : List (List Cell)) (r c : Nat) : Nat :=
  ((cellAt? rows r c).map Cell.color).getD 0

/-- Occupancy flag of the cell at `(r, c)` (false out of bounds). -/
def occupiedIn (rows : List (List Cell)) (r c : Nat) : Bool :=
  ((cellAt? rows r c).map Cell.contains_queen).getD false

/-- Python `self.grid[r][c].color`. -/
def colorAt (g : Grid) (r c : Nat) : Nat := colorIn g.grid r c

/-- Python `self.grid[r][c].contains_queen`. -/
def occupiedAt (g : Grid) (r c : Nat) : Bool := occupiedIn g.grid r c

/-- Update the cell at `(r, c)` with `f`, as the Python in-place field
writes `self.grid[r][c].field = v` do. -/
def updCell (rows : List (List Cell)) (r c : Nat) (f : Cell → Cell) : List (List Cell) :=
  modifyAt rows r fun rowL => modifyAt rowL c f

/-- Constructor `Grid.__init__` (src/Solver.py:12-16): an `n × n` grid of cells with
color 0 and no queens, an empty `queen_positions` list and empty history.
The constructor performs no size validation: any `n` yields a `Grid`. -/
def Grid.init (n : Nat) : Grid :=
  { grid_size := n
  , grid := (List.range n).map fun row =>
      (List.range n).map fun col => { row := row, col := col, color := 0, contains_queen := false }
  , queen_positions := some []
  , history := [] }

/-- The loop of `Grid.is_safe` (src/Solver.py:20-30) run against an explicit
queen list `qs`: Python's early-return chain over the list is the
conjunction, over all `(r, c)` in `qs`, of the negations of the row/column
test, the king-adjacency test and the color-conflict test. -/
def safeAgainstList (g : Grid) (qs : List (Nat × Nat)) (row col : Nat) : Bool :=
  qs.all fun rc =>
    !(rc.1 == row || rc.2 == col) &&
    !(decide (Nat.dist row rc.1 ≤ 1) && decide (Nat.dist col rc.2 ≤ 1)) &&
    !(colorIn g.grid rc.1 rc.2 == colorIn g.grid row col)

/-- Method `Grid.is_safe` (src/Solver.py:18-30).  The method iterates over
`self.queen_positions`; when that field is `None` the iteration raises
`TypeError`, modelled by result `none`. -/
def Grid.is_safe (g : Grid) (row col : Nat) : Option Bool :=
  g.queen_positions.map fun qs => safeAgainstList g qs row col

/-- The inner function `backtrack` of `Grid.solve` (src/Solver.py:34-50).
`stale` is the value `self.queen_positions` has throughout the run —
`is_safe` consults that field, not the list being built.  `fuel` is
`grid_size - row` (the base case `row == grid_size` is `fuel = 0`); `qs`
and `regions` are the `queen_positions` list and `placed_regions` set of
the Python closure, passed functionally.  `List.findSome?` is the
column for-loop: the first column whose guarded recursive call succeeds
wins, a column whose guard or recursive call fails is skipped. -/
def btRow (g : Grid) (stale : List (Nat × Nat)) :
    Nat → Nat → List (Nat × Nat) → List Nat → Option (List (Nat × Nat))
  | 0, _, qs, _ => some qs
  | fuel + 1, row, qs, regions =>
    (List.range g.grid_size).findSome? fun col =>
      if safeAgainstList g stale row col && !(regions.contains (colorIn g.grid row col)) then
        btRow g stale fuel (row + 1) (qs ++ [(row, col)]) (regions ++ [colorIn g.grid row col])
      else
        none

/-- Lines 52-57 of `Grid.solve`: store the backtracking result in
`queen_positions` and, when a placement came back, set `contains_queen`
on each of its cells (`for row, col in self.queen_positions`); on `None`
the code only prints "No solution found!". -/
def applySolveResult (g : Grid) (res : Option (List (Nat × Nat))) : Grid :=
  { g with
      queen_positions := res,
      grid := match res with
        | none => g.grid
        | some qs =>
          qs.foldl (fun acc p => updCell acc p.1 p.2 fun cell => { cell with contains_queen := true }) g.grid }

/-- Method `Grid.solve` (src/Solver.py:32-57).  When `queen_positions` is `None`
and the grid has at least one row, the first `is_safe` call inside
`backtrack` iterates over `None` and raises `TypeError`: the result is
`none`.  (For `grid_size = 0`, `backtrack` returns its empty local list
before ever calling `is_safe`.) -/
def Grid.solve (g : Grid) : Option Grid :=
  match g.queen_positions with
  | some stale => some (applySolveResult g (btRow g stale g.grid_size 0 [] []))
  | none => if g.grid_size = 0 then some (applySolveResult g (some [])) else none

/-- The row-major list of all `(r, c)` with `r < n` and `c < n`, in the
order Python's nested `for row in range(n): for col in range(n)` visits
them. -/
def rowMajor (n : Nat) : List (Nat × Nat) :=
  ((List.range n).map fun r => (List.range n).map fun c => (r, c)).flatten

/-- Method `Grid.reset` (src/Solver.py:59-64): set `queen_positions` to the empty
list and clear every `contains_queen` flag with the row-major double
loop. -/
def Grid.reset (g : Grid) : Grid :=
  { g with
      queen_positions := some [],
      grid := (rowMajor g.grid_size).foldl
        (fun acc p => updCell acc p.1 p.2 fun cell => { cell with contains_queen := false }) g.grid }

/-- Method `Grid.undo` (src/Solver.py:66-70): if the history is non-empty, pop its
last entry and restore that cell's color; otherwise do nothing. -/
def Grid.undo (g : Grid) : Grid :=
  match g.history.getLast? with
  | none => g
  | some (row, col, prev) =>
    { g with
        history := g.history.dropLast,
        grid := updCell g.grid row col fun cell => { cell with color := prev } }

/-- The recoloring the UI performs on a cell click (src/Solver.py:166-167):
`grid.grid[row][col].color = selected_color`, a direct field write — no
history entry is recorded anywhere in the program. -/
def Grid.recolor (g : Grid) (row col color : Nat) : Grid :=
  { g with grid := updCell g.grid row col fun cell => { cell with color := color } }

/-- Region-only backtracking over an explicit size and coloring function:
the same search as `btRow` with the `is_safe` conjunct dropped, so
candidate columns are pruned only by the used-region set.  Spec-side
definition used to state claim C10's refinement. -/
def regionSearch (n : Nat) (color : Nat → Nat → Nat) :
    Nat → Nat → List (Nat × Nat) → List Nat → Option (List (Nat × Nat))
  | 0, _, qs, _ => some qs
  | fuel + 1, row, qs, regions =>
    (List.range n).findSome? fun col =>
      if !(regions.contains (color row col)) then
        regionSearch n color fuel (row + 1) (qs ++ [(row, col)]) (regions ++ [color row col])
      else
        none

/-- The validity property claim C1 states for a returned placement:
exactly `grid_size` entries, pairwise-distinct rows, columns and regions,
and no two entries within Chebyshev distance 1 of each other. -/
def ValidPlacement (g : Grid) (qs : List (Nat × Nat)) : Prop :=
  qs.length = g.grid_size ∧
  (qs.map Prod.fst).Nodup ∧
  (qs.map Prod.snd).Nodup ∧
  (qs.map fun p => colorAt g p.1 p.2).Nodup ∧
  qs.Pairwise fun p q => ¬(Nat.dist p.1 q.1 ≤ 1 ∧ Nat.dist p.2 q.2 ≤ 1)

instance (g : Grid) (qs : List (Nat × Nat)) : Decidable (ValidPlacement g qs) := by
  unfold ValidPlacement
  exact instDecidableAnd

/-- Shape well-formedness: the grid really is `grid_size` rows of
`grid_size` cells, as `Grid.__init__` builds it. -/
def ShapeOK (g : Grid) : Prop :=
  g.grid.length = g.grid_size ∧ ∀ rowL ∈ g.grid, rowL.length = g.grid_size

/-- The occupancy/placement synchronisation invariant that actually holds:
whenever `queen_positions` is a real list `qs`, the `contains_queen` flags
mark exactly the cells of `qs`, every entry of `qs` is in bounds, and `qs`
is either empty or covers every row.  After a failed solve the field is
`None` and nothing is guaranteed about the flags. -/
def SyncOK (g : Grid) : Prop :=
  match g.queen_positions with
  | none => True
  | some qs =>
    (∀ r c, occupiedAt g r c = true ↔ (r, c) ∈ qs) ∧
    (∀ p ∈ qs, p.1 < g.grid_size ∧ p.2 < g.grid_size) ∧
    (qs = [] ∨ ∀ row, row < g.grid_size → ∃ c, (row, c) ∈ qs)

/-- The full state invariant. -/
def GridInv (g : Grid) : Prop := ShapeOK g ∧ SyncOK g

/-- Board states reachable through the public operations: construction,
recoloring a cell (the program has no other region-setting operation),
solve, reset and undo. -/
inductive Reachable : Grid → Prop where
  | init (n : Nat) : Reachable (Grid.init n)
  | recolorStep (g : Grid) (r c v : Nat) : Reachable g → Reachable (g.recolor r c v)
  | solveStep (g g' : Grid) : Reachable g → g.solve = some g' → Reachable g'
  | resetStep (g : Grid) : Reachable g → Reachable g.reset
  | undoStep (g : Grid) : Reachable g → Reachable g.undo

/-- A Grid(2) whose coloring is `[[0,0],[1,1]]`: each row one region. -/
def gRows2 : Grid := ((Grid.init 2).recolor 1 0 1).recolor 1 1 1

/-- A Grid(2) whose coloring is `[[0,0],[1,2]]`: two same-region cells in
row 0, distinct regions in row 1. -/
def gRow0Twice : Grid := ((Grid.init 2).recolor 1 0 1).recolor 1 1 2

/-- The board Grid(1) reaches after its first (successful) solve. -/
def g1solved : Grid :=
  { grid_size := 1
  , grid := [[{ row := 0, col := 0, color := 0, contains_queen := true }]]
  , queen_positions := some [(0, 0)]
  , history := [] }

/-- The board Grid(2) reaches after its first (failing) solve on the
all-zero coloring. -/
def g2failed : Grid := { Grid.init 2 with queen_positions := none }


/-! Basic lemmas about the cell-array primitives. -/

theorem length_modifyAt (l : List α) (i : Nat) (f : α → α) :
    (modifyAt l i f).length = l.length := by
  induction l generalizing i with
  | nil => cases i <;> rfl
  | cons x xs ih =>
    cases i with
    | zero => rfl
    | succ i' => simp [modifyAt, ih]

theorem getElem?_modifyAt (l : List α) (i j : Nat) (f : α → α) :
    (modifyAt l i f)[j]? = if i = j then (l[j]?).map f else l[j]? := by
  induction l generalizing i j with
  | nil => cases i <;> cases j <;> simp [modifyAt]
  | cons x xs ih =>
    cases i with
    | zero => cases j <;> simp [modifyAt]
    | succ i' =>
      cases j with
      | zero => simp [modifyAt]
      | succ j' => simpa [modifyAt, Nat.succ_inj] using ih i' j'

theorem mem_modifyAt {l : List α} {i : Nat} {f : α → α} {x : α} (hx : x ∈ modifyAt l i f) :
    x ∈ l ∨ ∃ y ∈ l, x = f y := by
  induction l generalizing i with
  | nil => cases i <;> simp [modifyAt] at hx
  | cons z zs ih =>
    cases i with
    | zero =>
      rcases List.mem_cons.mp hx with h | h
      · exact Or.inr ⟨z, List.mem_cons_self z zs, h⟩
      · exact Or.inl (List.mem_cons_of_mem z h)
    | succ i' =>
      rcases List.mem_cons.mp hx with h | h
      · exact Or.inl (h ▸ List.mem_cons_self z zs)
      · rcases ih h with h' | ⟨y, hy, hxy⟩
        · exact Or.inl (List.mem_cons_of_mem z h')
        · exact Or.inr ⟨y, List.mem_cons_of_mem z hy, hxy⟩

theorem cellAt?_updCell (rows : List (List Cell)) (a b r c : Nat) (f : Cell → Cell) :
    cellAt? (updCell rows a b f) r c =
      if a = r ∧ b = c then (cellAt? rows r c).map f else cellAt? rows r c := by
  unfold cellAt? updCell
  rw [getElem?_modifyAt]
  by_cases har : a = r
  · subst har
    rw [if_pos rfl]
    cases hrow : rows[a]? with
    | none => simp
    | some rowL =>
      simp only [Option.map_some', Option.some_bind]
      rw [getElem?_modifyAt]
      by_cases hbc : b = c
      · simp [hbc]
      · simp [hbc]
  · rw [if_neg har, if_neg (fun h => har h.1)]

theorem cellAt?_foldl_updCell (f : Cell → Cell) (hf : ∀ x, f (f x) = f x)
    (ps : List (Nat × Nat)) (rows : List (List Cell)) (r c : Nat) :
    cellAt? (ps.foldl (fun acc p => updCell acc p.1 p.2 f) rows) r c =
      if (r, c) ∈ ps then (cellAt? rows r c).map f else cellAt? rows r c := by
  induction ps generalizing rows with
  | nil => simp
  | cons p ps ih =>
    rw [List.foldl_cons, ih, cellAt?_updCell]
    have hiff : (r, c) ∈ p :: ps ↔ (p.1 = r ∧ p.2 = c) ∨ (r, c) ∈ ps := by
      rw [List.mem_cons]
      constructor
      · rintro (h | h)
        · exact Or.inl ⟨congrArg Prod.fst h.symm, congrArg Prod.snd h.symm⟩
        · exact Or.inr h
      · rintro (⟨h1, h2⟩ | h)
        · exact Or.inl (Prod.ext h1 h2).symm
        · exact Or.inr h
    by_cases hmem : (r, c) ∈ ps
    · rw [if_pos hmem, if_pos (hiff.mpr (Or.inr hmem))]
      by_cases hp : p.1 = r ∧ p.2 = c
      · rw [if_pos hp, Option.map_map]
        congr 1
        funext x
        exact hf x
      · rw [if_neg hp]
    · rw [if_neg hmem]
      by_cases hp : p.1 = r ∧ p.2 = c
      · rw [if_pos hp, if_pos (hiff.mpr (Or.inl hp))]
      · rw [if_neg hp, if_neg (fun h => (hiff.mp h).elim hp hmem)]

theorem colorIn_updCell (rows : List (List Cell)) (a b r c : Nat) (f : Cell → Cell)
    (hf : ∀ x, (f x).color = x.color) :
    colorIn (updCell rows a b f) r c = colorIn rows r c := by
  unfold colorIn
  rw [cellAt?_updCell]
  by_cases h : a = r ∧ b = c
  · rw [if_pos h, Option.map_map]
    congr 2
    funext x
    exact hf x
  · rw [if_neg h]

theorem occupiedIn_updCell (rows : List (List Cell)) (a b r c : Nat) (f : Cell → Cell)
    (hf : ∀ x, (f x).contains_queen = x.contains_queen) :
    occupiedIn (updCell rows a b f) r c = occupiedIn rows r c := by
  unfold occupiedIn
  rw [cellAt?_updCell]
  by_cases h : a = r ∧ b = c
  · rw [if_pos h, Option.map_map]
    congr 2
    funext x
    exact hf x
  · rw [if_neg h]

theorem colorIn_foldl_updCell (f : Cell → Cell) (hf : ∀ x, (f x).color = x.color)
    (ps : List (Nat × Nat)) (rows : List (List Cell)) (r c : Nat) :
    colorIn (ps.foldl (fun acc p => updCell acc p.1 p.2 f) rows) r c = colorIn rows r c := by
  induction ps generalizing rows with
  | nil => rfl
  | cons p ps ih => rw [List.foldl_cons, ih, colorIn_updCell _ _ _ _ _ _ hf]

theorem occupiedIn_foldl_updCell (f : Cell → Cell)
    (hf : ∀ x, (f x).contains_queen = x.contains_queen)
    (ps : List (Nat × Nat)) (rows : List (List Cell)) (r c : Nat) :
    occupiedIn (ps.foldl (fun acc p => updCell acc p.1 p.2 f) rows) r c = occupiedIn rows r c := by
  induction ps generalizing rows with
  | nil => rfl
  | cons p ps ih => rw [List.foldl_cons, ih, occupiedIn_updCell _ _ _ _ _ _ hf]

/-! Lemmas about `List.findSome?`, the shape of the column loop. -/

theorem findSome?_cons_some {f : α → Option β} {x : α} {xs : List α} {b : β} (h : f x = some b) :
    (x :: xs).findSome? f = some b := by
  rw [List.findSome?_cons, h]

theorem findSome?_cons_none {f : α → Option β} {x : α} {xs : List α} (h : f x = none) :
    (x :: xs).findSome? f = xs.findSome? f := by
  rw [List.findSome?_cons, h]

theorem findSome?_congr {f₁ f₂ : α → Option β} :
    ∀ l : List α, (∀ a ∈ l, f₁ a = f₂ a) → l.findSome? f₁ = l.findSome? f₂ := by
  intro l
  induction l with
  | nil => intro _; rfl
  | cons x xs ih =>
    intro hyp
    rw [List.findSome?_cons, List.findSome?_cons, hyp x (List.mem_cons_self x xs)]
    cases f₂ x with
    | some b => rfl
    | none => exact ih fun a ha => hyp a (List.mem_cons_of_mem x ha)

theorem findSome?_eq_none_of {f : α → Option β} :
    ∀ l : List α, (∀ a ∈ l, f a = none) → l.findSome? f = none := by
  intro l
  induction l with
  | nil => intro _; rfl
  | cons x xs ih =>
    intro hyp
    rw [findSome?_cons_none (hyp x (List.mem_cons_self x xs))]
    exact ih fun a ha => hyp a (List.mem_cons_of_mem x ha)

theorem exists_of_findSome?_eq_some {f : α → Option β} {b : β} :
    ∀ {l : List α}, l.findSome? f = some b → ∃ a ∈ l, f a = some b := by
  intro l
  induction l with
  | nil => intro h; exact absurd h (by simp)
  | cons x xs ih =>
    intro h
    rw [List.findSome?_cons] at h
    cases hx : f x with
    | some b' =>
      rw [hx] at h
      exact ⟨x, List.mem_cons_self x xs, by rw [hx]; exact h⟩
    | none =>
      rw [hx] at h
      obtain ⟨a, ha, hfa⟩ := ih h
      exact ⟨a, List.mem_cons_of_mem x ha, hfa⟩

/-! Shape preservation and in-bounds cell lookup. -/

theorem shape_updCell {rows : List (List Cell)} {n : Nat} (a b : Nat) (f : Cell → Cell)
    (hlen : rows.length = n) (hrows : ∀ rowL ∈ rows, rowL.length = n) :
    (updCell rows a b f).length = n ∧ ∀ rowL ∈ updCell rows a b f, rowL.length = n := by
  refine ⟨by rw [updCell, length_modifyAt, hlen], ?_⟩
  intro rowL hmem
  rcases mem_modifyAt hmem with h | ⟨y, hy, rfl⟩
  · exact hrows _ h
  · rw [length_modifyAt]
    exact hrows _ hy

theorem shape_foldl_updCell (f : Cell → Cell) {n : Nat} :
    ∀ (ps : List (Nat × Nat)) (rows : List (List Cell)),
      rows.length = n → (∀ rowL ∈ rows, rowL.length = n) →
      (ps.foldl (fun acc p => updCell acc p.1 p.2 f) rows).length = n ∧
        ∀ rowL ∈ ps.foldl (fun acc p => updCell acc p.1 p.2 f) rows, rowL.length = n := by
  intro ps
  induction ps with
  | nil => intro rows h1 h2; exact ⟨h1, h2⟩
  | cons p ps ih =>
    intro rows h1 h2
    rw [List.foldl_cons]
    have h' := shape_updCell p.1 p.2 f h1 h2
    exact ih _ h'.1 h'.2

theorem cellAt?_eq_some_of_lt {rows : List (List Cell)} {n r c : Nat}
    (hlen : rows.length = n) (hrows : ∀ rowL ∈ rows, rowL.length = n)
    (hr : r < n) (hc : c < n) : ∃ cell, cellAt? rows r c = some cell := by
  have hr' : r < rows.length := by omega
  have h2 : rows[r].length = n := hrows _ (List.getElem_mem hr')
  have hc' : c < rows[r].length := by omega
  refine ⟨rows[r][c], ?_⟩
  rw [cellAt?, List.getElem?_eq_getElem hr', Option.some_bind]
  exact List.getElem?_eq_getElem hc'

theorem cellAt?_eq_none_of_oob {rows : List (List Cell)} {n r c : Nat}
    (hlen : rows.length = n) (hrows : ∀ rowL ∈ rows, rowL.length = n)
    (h : ¬(r < n ∧ c < n)) : cellAt? rows r c = none := by
  by_cases hr : r < n
  · have hc : ¬ c < n := fun hc => h ⟨hr, hc⟩
    have hr' : r < rows.length := by omega
    have h2 : rows[r].length = n := hrows _ (List.getElem_mem hr')
    rw [cellAt?, List.getElem?_eq_getElem hr', Option.some_bind]
    exact List.getElem?_eq_none (by omega)
  · rw [cellAt?, List.getElem?_eq_none (by omega), Option.none_bind]

theorem mem_rowMajor {n r c : Nat} : (r, c) ∈ rowMajor n ↔ r < n ∧ c < n := by
  simp only [rowMajor, List.mem_flatten, List.mem_map, List.mem_range]
  constructor
  · rintro ⟨l, ⟨a, ha, rfl⟩, hmem⟩
    obtain ⟨b, hb, hab⟩ := List.mem_map.mp hmem
    obtain ⟨rfl, rfl⟩ := Prod.mk.inj hab
    exact ⟨ha, List.mem_range.mp hb⟩
  · rintro ⟨hr, hc⟩
    exact ⟨(List.range n).map fun c => (r, c), ⟨r, hr, rfl⟩, List.mem_map.mpr ⟨c, List.mem_range.mpr hc, rfl⟩⟩

/-! Lemmas about the backtracking search itself. -/

theorem btRow_shape (g : Grid) (stale : List (Nat × Nat)) :
    ∀ (fuel row : Nat) (qs : List (Nat × Nat)) (regions : List Nat) (sol : List (Nat × Nat)),
      btRow g stale fuel row qs regions = some sol →
      ∃ ext, sol = qs ++ ext ∧ ext.map Prod.fst = List.range' row fuel ∧
        ∀ p ∈ ext, p.2 < g.grid_size := by
  intro fuel
  induction fuel with
  | zero =>
    intro row qs regions sol h
    obtain rfl : qs = sol := Option.some.inj h
    exact ⟨[], by simp, rfl, by simp⟩
  | succ fuel ih =>
    intro row qs regions sol h
    simp only [btRow] at h
    obtain ⟨col, hcol, hcall⟩ := exists_of_findSome?_eq_some h
    split at hcall
    · obtain ⟨ext, hsol, hmap, hbnd⟩ := ih (row + 1) (qs ++ [(row, col)]) _ sol hcall
      refine ⟨(row, col) :: ext, ?_, ?_, ?_⟩
      · rw [hsol]
        simp
      · rw [List.range'_succ]
        simpa using hmap
      · intro p hp
        rcases List.mem_cons.mp hp with rfl | hp'
        · exact List.mem_range.mp hcol
        · exact hbnd p hp'
    · exact absurd hcall (by simp)

theorem btRow_blocked (g : Grid) (stale : List (Nat × Nat)) (fuel row : Nat)
    (qs : List (Nat × Nat)) (regions : List Nat) {c0 : Nat} (hc0 : (row, c0) ∈ stale) :
    btRow g stale (fuel + 1) row qs regions = none := by
  simp only [btRow]
  apply findSome?_eq_none_of
  intro col _
  have hsafe : safeAgainstList g stale row col = false := by
    simp only [safeAgainstList]
    rw [List.all_eq_false]
    refine ⟨(row, c0), hc0, ?_⟩
    simp
  rw [hsafe]
  simp

theorem btRow_empty_stale (g : Grid) :
    ∀ (fuel row : Nat) (qs : List (Nat × Nat)) (regions : List Nat),
      btRow g [] fuel row qs regions =
        regionSearch g.grid_size (colorAt g) fuel row qs regions := by
  intro fuel
  induction fuel with
  | zero => intro row qs regions; rfl
  | succ fuel ih =>
    intro row qs regions
    simp only [btRow, regionSearch, colorAt]
    apply findSome?_congr
    intro col _
    have hsafe : safeAgainstList g [] row col = true := rfl
    rw [hsafe, Bool.true_and, ih]

/-! Working with the synchronisation invariant. -/

theorem syncOK_of_none {g : Grid} (hq : g.queen_positions = none) : SyncOK g := by
  unfold SyncOK
  rw [hq]
  trivial

theorem syncOK_of_some {g : Grid} {qs : List (Nat × Nat)} (hq : g.queen_positions = some qs)
    (h1 : ∀ r c, occupiedAt g r c = true ↔ (r, c) ∈ qs)
    (h2 : ∀ p ∈ qs, p.1 < g.grid_size ∧ p.2 < g.grid_size)
    (h3 : qs = [] ∨ ∀ row, row < g.grid_size → ∃ c, (row, c) ∈ qs) : SyncOK g := by
  unfold SyncOK
  rw [hq]
  exact ⟨h1, h2, h3⟩

theorem syncOK_some {g : Grid} {qs : List (Nat × Nat)} (h : SyncOK g)
    (hq : g.queen_positions = some qs) :
    (∀ r c, occupiedAt g r c = true ↔ (r, c) ∈ qs) ∧
    (∀ p ∈ qs, p.1 < g.grid_size ∧ p.2 < g.grid_size) ∧
    (qs = [] ∨ ∀ row, row < g.grid_size → ∃ c, (row, c) ∈ qs) := by
  unfold SyncOK at h
  rw [hq] at h
  exact h

/-! Pointwise descriptions of the constructed grid and the operations. -/

theorem cellAt?_init (n r c : Nat) :
    cellAt? (Grid.init n).grid r c =
      if r < n ∧ c < n then some { row := r, col := c, color := 0, contains_queen := false }
      else none := by
  unfold Grid.init cellAt?
  simp only [List.getElem?_map]
  by_cases hr : r < n
  · rw [List.getElem?_range hr]
    simp only [Option.map_some', Option.some_bind, List.getElem?_map]
    by_cases hc : c < n
    · rw [List.getElem?_range hc]
      simp [hr, hc]
    · rw [List.getElem?_eq_none (by simpa [List.length_range] using Nat.le_of_not_lt hc)]
      simp [hr, hc]
  · rw [List.getElem?_eq_none (by simpa [List.length_range] using Nat.le_of_not_lt hr)]
    simp [hr]

theorem shapeOK_init (n : Nat) : ShapeOK (Grid.init n) := by
  constructor
  · simp [Grid.init]
  · intro rowL h
    simp only [Grid.init, List.mem_map] at h
    obtain ⟨row, _, rfl⟩ := h
    simp [Grid.init]

theorem occupiedAt_init (n r c : Nat) : occupiedAt (Grid.init n) r c = false := by
  unfold occupiedAt occupiedIn
  rw [cellAt?_init]
  by_cases h : r < n ∧ c < n
  · rw [if_pos h]
    rfl
  · rw [if_neg h]
    rfl

theorem colorAt_init (n r c : Nat) : colorAt (Grid.init n) r c = 0 := by
  unfold colorAt colorIn
  rw [cellAt?_init]
  by_cases h : r < n ∧ c < n
  · rw [if_pos h]
    rfl
  · rw [if_neg h]
    rfl

theorem gridInv_init (n : Nat) : GridInv (Grid.init n) := by
  refine ⟨shapeOK_init n, syncOK_of_some rfl ?_ ?_ ?_⟩
  · intro r c
    rw [occupiedAt_init]
    simp
  · intro p hp
    exact absurd hp (List.not_mem_nil p)
  · exact Or.inl rfl

theorem occupiedAt_recolor (g : Grid) (a b v r c : Nat) :
    occupiedAt (g.recolor a b v) r c = occupiedAt g r c :=
  occupiedIn_updCell _ _ _ _ _ _ fun _ => rfl

theorem colorAt_recolor_other (g : Grid) (a b v r c : Nat) (h : ¬(a = r ∧ b = c)) :
    colorAt (g.recolor a b v) r c = colorAt g r c := by
  unfold colorAt Grid.recolor
  show colorIn (updCell g.grid a b _) r c = colorIn g.grid r c
  unfold colorIn
  rw [cellAt?_updCell, if_neg h]

theorem gridInv_recolor {g : Grid} (h : GridInv g) (a b v : Nat) : GridInv (g.recolor a b v) := by
  obtain ⟨⟨hlen, hrows⟩, hsync⟩ := h
  refine ⟨shape_updCell a b _ hlen hrows, ?_⟩
  cases hq : g.queen_positions with
  | none => exact syncOK_of_none hq
  | some qs =>
    obtain ⟨h1, h2, h3⟩ := syncOK_some hsync hq
    refine syncOK_of_some hq ?_ h2 h3
    intro r c
    rw [occupiedAt_recolor]
    exact h1 r c

theorem undo_of_getLast?_none {g : Grid} (hh : g.history.getLast? = none) : g.undo = g := by
  unfold Grid.undo
  rw [hh]

theorem undo_of_getLast?_some {g : Grid} {row col prev : Nat}
    (hh : g.history.getLast? = some (row, col, prev)) :
    g.undo = { g with
        history := g.history.dropLast,
        grid := updCell g.grid row col fun cell => { cell with color := prev } } := by
  unfold Grid.undo
  rw [hh]

theorem gridInv_undo {g : Grid} (h : GridInv g) : GridInv g.undo := by
  obtain ⟨⟨hlen, hrows⟩, hsync⟩ := h
  cases hh : g.history.getLast? with
  | none =>
    rw [undo_of_getLast?_none hh]
    exact ⟨⟨hlen, hrows⟩, hsync⟩
  | some entry =>
    obtain ⟨row, col, prev⟩ := entry
    rw [undo_of_getLast?_some hh]
    refine ⟨shape_updCell row col _ hlen hrows, ?_⟩
    cases hq : g.queen_positions with
    | none => exact syncOK_of_none rfl
    | some qs =>
      obtain ⟨h1, h2, h3⟩ := syncOK_some hsync hq
      refine syncOK_of_some rfl ?_ h2 h3
      intro r c
      have heq : occupiedIn (updCell g.grid row col fun cell => { cell with color := prev }) r c =
          occupiedIn g.grid r c :=
        occupiedIn_updCell _ _ _ _ _ _ fun _ => rfl
      show occupiedIn (updCell g.grid row col fun cell => { cell with color := prev }) r c = true ↔ _
      rw [heq]
      exact h1 r c

theorem occupiedAt_reset {g : Grid} (hlen : g.grid.length = g.grid_size)
    (hrows : ∀ rowL ∈ g.grid, rowL.length = g.grid_size) (r c : Nat) :
    occupiedAt g.reset r c = false := by
  show occupiedIn ((rowMajor g.grid_size).foldl _ g.grid) r c = false
  unfold occupiedIn
  rw [cellAt?_foldl_updCell (fun cell => { cell with contains_queen := false }) fun _ => rfl]
  by_cases hmem : (r, c) ∈ rowMajor g.grid_size
  · rw [if_pos hmem]
    cases cellAt? g.grid r c <;> rfl
  · rw [if_neg hmem, cellAt?_eq_none_of_oob hlen hrows fun hb => hmem (mem_rowMajor.mpr hb)]
    rfl

theorem colorAt_reset (g : Grid) (r c : Nat) : colorAt g.reset r c = colorAt g r c :=
  colorIn_foldl_updCell (fun cell => { cell with contains_queen := false }) (fun _ => rfl) _ _ r c

theorem gridInv_reset {g : Grid} (h : GridInv g) : GridInv g.reset := by
  obtain ⟨⟨hlen, hrows⟩, _⟩ := h
  refine ⟨shape_foldl_updCell _ _ _ hlen hrows, syncOK_of_some rfl ?_ ?_ ?_⟩
  · intro r c
    rw [occupiedAt_reset hlen hrows]
    simp
  · intro p hp
    exact absurd hp (List.not_mem_nil p)
  · exact Or.inl rfl

/-! Characterisations of `Grid.solve`. -/

theorem applySolveResult_none_eq (g : Grid) :
    applySolveResult g none = { g with queen_positions := none } := rfl

theorem applySolveResult_some_eq (g : Grid) (qs : List (Nat × Nat)) :
    applySolveResult g (some qs) =
      { g with
          queen_positions := some qs,
          grid := qs.foldl
            (fun acc p => updCell acc p.1 p.2 fun cell => { cell with contains_queen := true })
            g.grid } := rfl

theorem solve_of_qp_some {g : Grid} {stale : List (Nat × Nat)}
    (hq : g.queen_positions = some stale) :
    g.solve = some (applySolveResult g (btRow g stale g.grid_size 0 [] [])) := by
  unfold Grid.solve
  rw [hq]

theorem solve_of_qp_none {g : Grid} (hq : g.queen_positions = none) :
    g.solve = if g.grid_size = 0 then some (applySolveResult g (some [])) else none := by
  unfold Grid.solve
  rw [hq]

theorem gridInv_solve {g g' : Grid} (h : GridInv g) (hs : g.solve = some g') : GridInv g' := by
  obtain ⟨⟨hlen, hrows⟩, hsync⟩ := h
  cases hq : g.queen_positions with
  | none =>
    rw [solve_of_qp_none hq] at hs
    split at hs
    next h0 =>
      obtain rfl := Option.some.inj hs
      rw [applySolveResult_some_eq]
      refine ⟨⟨by simpa using hlen, by simpa using hrows⟩, syncOK_of_some rfl ?_ ?_ ?_⟩
      · intro r c
        have hcell : cellAt? g.grid r c = none :=
          cellAt?_eq_none_of_oob hlen hrows (by omega)
        show occupiedIn g.grid r c = true ↔ (r, c) ∈ ([] : List (Nat × Nat))
        unfold occupiedIn
        rw [hcell]
        simp
      · intro p hp
        exact absurd hp (List.not_mem_nil p)
      · exact Or.inl rfl
    next =>
      exact absurd hs (by simp)
  | some stale =>
    rw [solve_of_qp_some hq] at hs
    obtain rfl := Option.some.inj hs
    cases stale with
    | nil =>
      cases hres : btRow g [] g.grid_size 0 [] [] with
      | none =>
        rw [applySolveResult_none_eq]
        exact ⟨⟨hlen, hrows⟩, syncOK_of_none rfl⟩
      | some P =>
        obtain ⟨ext, hPext, hmap, hbnd⟩ := btRow_shape g [] _ 0 [] [] P hres
        rw [List.nil_append] at hPext
        subst hPext
        rw [applySolveResult_some_eq]
        have hfst : ∀ p ∈ P, p.1 < g.grid_size := by
          intro p hp
          have hmem := List.mem_map_of_mem Prod.fst hp
          rw [hmap] at hmem
          have := List.mem_range'_1.mp hmem
          omega
        have h1 := (syncOK_some hsync hq).1
        have hofalse : ∀ r c, occupiedAt g r c = false := by
          intro r c
          cases hb : occupiedAt g r c
          · rfl
          · exact absurd ((h1 r c).mp hb) (List.not_mem_nil _)
        refine ⟨⟨?_, ?_⟩, syncOK_of_some rfl ?_ ?_ ?_⟩
        · exact (shape_foldl_updCell _ P g.grid hlen hrows).1
        · exact (shape_foldl_updCell _ P g.grid hlen hrows).2
        · intro r c
          show occupiedIn (P.foldl
            (fun acc p => updCell acc p.1 p.2 fun cell => { cell with contains_queen := true })
            g.grid) r c = true ↔ (r, c) ∈ P
          unfold occupiedIn
          rw [cellAt?_foldl_updCell (fun cell => { cell with contains_queen := true }) fun _ => rfl]
          by_cases hmem : (r, c) ∈ P
          · rw [if_pos hmem]
            obtain ⟨cell, hcell⟩ :=
              cellAt?_eq_some_of_lt hlen hrows (hfst _ hmem) (hbnd _ hmem)
            rw [hcell]
            simp [hmem]
          · rw [if_neg hmem]
            have hfalse : occupiedIn g.grid r c = false := hofalse r c
            unfold occupiedIn at hfalse
            rw [hfalse]
            simp [hmem]
        · intro p hp
          exact ⟨hfst p hp, hbnd p hp⟩
        · right
          intro row hrow
          have hrow' : row < g.grid_size := hrow
          have hmem : row ∈ List.range' 0 g.grid_size :=
            List.mem_range'_1.mpr ⟨Nat.zero_le _, by omega⟩
          rw [← hmap] at hmem
          obtain ⟨p, hp, hpeq⟩ := List.mem_map.mp hmem
          obtain ⟨p1, p2⟩ := p
          cases hpeq
          exact ⟨p2, hp⟩
    | cons p0 rest =>
      obtain ⟨h1, h2, h3⟩ := syncOK_some hsync hq
      have hN : 0 < g.grid_size :=
        Nat.lt_of_le_of_lt (Nat.zero_le _) (h2 p0 (List.mem_cons_self _ _)).1
      have hfull := h3.resolve_left (by simp)
      obtain ⟨c0, hc0⟩ := hfull 0 hN
      have hnone : btRow g (p0 :: rest) g.grid_size 0 [] [] = none := by
        obtain ⟨m, hm⟩ : ∃ m, g.grid_size = m + 1 := ⟨g.grid_size - 1, by omega⟩
        rw [hm]
        exact btRow_blocked g _ m 0 [] [] hc0
      rw [hnone, applySolveResult_none_eq]
      exact ⟨⟨hlen, hrows⟩, syncOK_of_none rfl⟩

/-- Every reachable board state satisfies the invariant. -/
theorem gridInv_of_reachable {g : Grid} (h : Reachable g) : GridInv g := by
  induction h with
  | init n => exact gridInv_init n
  | recolorStep g r c v _ ih => exact gridInv_recolor ih r c v
  | solveStep g g' _ hs ih => exact gridInv_solve ih hs
  | resetStep g _ ih => exact gridInv_reset ih
  | undoStep g _ ih => exact gridInv_undo ih

theorem qp_applySolveResult (g : Grid) (res : Option (List (Nat × Nat))) :
    (applySolveResult g res).queen_positions = res := by
  cases res <;> rfl

theorem colorAt_applySolveResult (g : Grid) (res : Option (List (Nat × Nat))) (r c : Nat) :
    colorAt (applySolveResult g res) r c = colorAt g r c := by
  cases res with
  | none => rfl
  | some P =>
    rw [applySolveResult_some_eq]
    show colorIn (P.foldl
      (fun acc p => updCell acc p.1 p.2 fun cell => { cell with contains_queen := true })
      g.grid) r c = colorAt g r c
    exact colorIn_foldl_updCell (fun cell => { cell with contains_queen := true })
      (fun _ => rfl) P g.grid r c

/-! The claims. -/

/-- C1: REFUTED by the code — this theorem evaluates the program at the
failing input.  The claim says every placement returned by `solve`
has pairwise-distinct rows, columns and regions and no two entries within
Chebyshev distance 1.  On Grid(2) with coloring `[[0,0],[1,1]]` the solver
returns `[(0,0),(1,0)]`, which repeats column 0 and has its two queens
adjacent: `is_safe` consults the stale `self.queen_positions` field (empty
throughout a fresh run) instead of the partial placement being built, so
only the region constraint actually prunes. -/
theorem nqueens_solve_returns_invalid_placement :
    (gRows2.solve).map Grid.queen_positions = some (some [(0, 0), (1, 0)]) ∧
    ¬ ValidPlacement gRows2 [(0, 0), (1, 0)] := by
  exact ⟨by decide, by decide⟩

/-- C2: REFUTED by the code — this theorem evaluates the program at the
failing input.  The claim says a column is committed at row r only when
`is_safe(r, c)` holds against the partial placement built by the same run.
On Grid(2) with coloring `[[0,0],[1,1]]` the run first commits (0,0) and
then commits (1,0) although `is_safe` computed against the partial
placement `[(0,0)]` is false at (1,0) (same column, adjacent): the code
evaluates `is_safe` against the stale board field instead. -/
theorem nqueens_commit_ignores_partial_placement :
    (gRows2.solve).map Grid.queen_positions = some (some [(0, 0), (1, 0)]) ∧
    safeAgainstList gRows2 [(0, 0)] 1 0 = false := by
  exact ⟨by decide, by decide⟩

/-- C3, counterexample: the claim says a failing solve leaves
`queen_positions` exactly as it was.  On a fresh Grid(2) (all cells region
0) the field is `[]` before the call and the failure marker `None` after
it. -/
theorem solve_failure_overwrites_placements :
    (Grid.init 2).queen_positions = some [] ∧
    ((Grid.init 2).solve).map Grid.queen_positions = some none := by
  exact ⟨by decide, by decide⟩

/-- C3 (amended): when solve reports no solution (it stores `None`, or the
empty list in the `grid_size = 0` corner), the grid — hence every
`occupied` flag and every region — and the history are exactly as before
the call; only the `queen_positions` field is overwritten with the failure
marker. -/
theorem solve_failure_preserves_grid_and_history (g g' : Grid) (hs : g.solve = some g')
    (hfail : g'.queen_positions = none ∨ g'.queen_positions = some []) :
    g'.grid = g.grid ∧ g'.history = g.history := by
  cases hq : g.queen_positions with
  | none =>
    rw [solve_of_qp_none hq] at hs
    split at hs
    next =>
      obtain rfl := Option.some.inj hs
      exact ⟨rfl, rfl⟩
    next => exact absurd hs (by simp)
  | some stale =>
    rw [solve_of_qp_some hq] at hs
    obtain rfl := Option.some.inj hs
    rw [qp_applySolveResult] at hfail
    rcases hfail with hfail | hfail <;> rw [hfail] <;> exact ⟨rfl, rfl⟩

/-- C3 witness: the amended statement applied to the failing solve on a
fresh Grid(2). -/
theorem solve_failure_preserves_grid_and_history_witness :
    g2failed.grid = (Grid.init 2).grid ∧ g2failed.history = (Grid.init 2).history :=
  solve_failure_preserves_grid_and_history (Grid.init 2) g2failed (by decide) (Or.inl (by decide))

/-- C4, counterexample: the claim says `occupied` is true iff the cell is
in `placements` in every reachable state.  Solve Grid(2) with coloring
`[[0,0],[1,1]]` (success, queens at (0,0) and (1,0)), recolor (1,0) back
to 0, and solve again: the second solve fails, leaving
`queen_positions = None` — no entries at all — while cell (0,0) still has
`contains_queen = true`. -/
theorem occupied_placements_desync_after_failed_solve :
    ((gRows2.solve).bind fun gb => ((gb.recolor 1 0 0).solve).map fun gc =>
      (occupiedAt gc 0 0, gc.queen_positions)) = some (true, none) := by
  decide

/-- C4 (amended): in every reachable state whose `queen_positions` is an
actual list (not the post-failure `None` marker), the `contains_queen`
flags mark exactly the cells of that list — in particular this holds right
after a successful solve; after a failed solve the field is `None` and the
flags may keep the cells of an earlier success. -/
theorem occupied_iff_mem_placements_of_reachable {g : Grid} (h : Reachable g)
    {qs : List (Nat × Nat)} (hq : g.queen_positions = some qs) (r c : Nat) :
    occupiedAt g r c = true ↔ (r, c) ∈ qs :=
  (syncOK_some (gridInv_of_reachable h).2 hq).1 r c

/-- C4 witness: the amended statement applied to the reachable state
`g1solved` (Grid(1) after one successful solve). -/
theorem occupied_iff_mem_placements_witness : occupiedAt g1solved 0 0 = true :=
  (occupied_iff_mem_placements_of_reachable
    (Reachable.solveStep (Grid.init 1) g1solved (Reachable.init 1) (by decide))
    (show g1solved.queen_positions = some [(0, 0)] from rfl) 0 0).mpr (by decide)

/-- C5: REFUTED by the code — this theorem evaluates the program at the
failing input.  The claim says two successive solves with no intervening
mutation return the same result.  On Grid(1) the first solve returns the
placement `[(0,0)]`; the second returns no solution, because `is_safe` now
rejects every cell against the stored previous solution. -/
theorem solve_twice_differs :
    ((Grid.init 1).solve).map Grid.queen_positions = some (some [(0, 0)]) ∧
    (((Grid.init 1).solve).bind Grid.solve).map Grid.queen_positions = some none := by
  exact ⟨by decide, by decide⟩

/-- C6: REFUTED by the code — this theorem evaluates the program at the
failing input.  The claim says that with N = 2 any coloring in which two
same-region cells share a row yields no solution.  On the coloring
`[[0,0],[1,2]]` cells (0,0) and (0,1) share region 0 and row 0, yet solve
returns the placement `[(0,0),(1,0)]` instead of reporting no solution. -/
theorem same_region_row_still_solved :
    colorAt gRow0Twice 0 0 = colorAt gRow0Twice 0 1 ∧
    (gRow0Twice.solve).map Grid.queen_positions = some (some [(0, 0), (1, 0)]) := by
  exact ⟨by decide, by decide⟩

/-- C7, counterexample: the claim says construction with N ≤ 0 fails and
produces no board.  `Grid.__init__` performs no validation: size 0
produces a perfectly good (empty) board. -/
theorem construction_succeeds_for_size_zero :
    Grid.init 0 = { grid_size := 0, grid := [], queen_positions := some [], history := [] } := by
  decide

/-- C7 (amended): construction never fails; for every size (in particular
every N ≥ 1, witnessed by in-bounds cells) it produces a board whose every
cell has region 0 and no queen, with empty placements and history. -/
theorem init_board_fields (n r c : Nat) (_hr : r < n) (_hc : c < n) :
    (Grid.init n).queen_positions = some [] ∧ (Grid.init n).history = [] ∧
    colorAt (Grid.init n) r c = 0 ∧ occupiedAt (Grid.init n) r c = false :=
  ⟨rfl, rfl, colorAt_init n r c, occupiedAt_init n r c⟩

/-- C7 witness: the amended statement at N = 3, cell (1, 2). -/
theorem init_board_fields_witness :
    (Grid.init 3).queen_positions = some [] ∧ (Grid.init 3).history = [] ∧
    colorAt (Grid.init 3) 1 2 = 0 ∧ occupiedAt (Grid.init 3) 1 2 = false :=
  init_board_fields 3 1 2 (by decide) (by decide)

/-- C8, counterexample: the claim quantifies over every board.  Take
Grid(1) after its first solve (stale placement `[(0,0)]`): the "original"
solve on that board reports no solution, while reset-then-solve finds
`[(0,0)]` — different results on an unchanged coloring. -/
theorem reset_solve_differs_from_stale_solve :
    (((Grid.init 1).solve).bind fun gb =>
      (gb.solve).bind fun g1 => ((gb.reset).solve).map fun g2 =>
        (g1.queen_positions, g2.queen_positions)) = some (none, some [(0, 0)]) := by
  decide

/-- C8 (amended): for every board whose placements list is empty (as after
construction or reset) the claim holds: solve, then reset, then solve again
stores the same `queen_positions` result both times (the same placement on
success, the failure marker on failure). -/
theorem reset_then_solve_reproduces (g : Grid) (hq : g.queen_positions = some []) :
    ∃ g' g'', g.solve = some g' ∧ (g'.reset).solve = some g'' ∧
      g''.queen_positions = g'.queen_positions := by
  refine ⟨_, _, solve_of_qp_some hq, solve_of_qp_some rfl, ?_⟩
  rw [qp_applySolveResult, qp_applySolveResult, btRow_empty_stale, btRow_empty_stale]
  have hcolor : colorAt ((applySolveResult g
      (regionSearch g.grid_size (colorAt g) g.grid_size 0 [] [])).reset) = colorAt g := by
    funext r c
    rw [colorAt_reset, colorAt_applySolveResult]
  have hsize : ((applySolveResult g
      (regionSearch g.grid_size (colorAt g) g.grid_size 0 [] [])).reset).grid_size
      = g.grid_size := rfl
  rw [hcolor, hsize]

/-- C8 witness: the amended statement applied to a fresh Grid(1). -/
theorem reset_then_solve_reproduces_witness :
    ∃ g' g'', (Grid.init 1).solve = some g' ∧ (g'.reset).solve = some g'' ∧
      g''.queen_positions = g'.queen_positions :=
  reset_then_solve_reproduces (Grid.init 1) rfl

/-- C9: REFUTED by the code — this theorem evaluates the program at the
failing input.  The claim says recoloring appends `(row, col, old_region)`
to the history and undo restores the previous region.  The program's only
recoloring operation (src/Solver.py:167) writes the color directly and
nothing in the program ever appends to `history`, so after recoloring cell
(0,0) of a fresh Grid(2) to region 5 the history is still empty, `undo()`
is a no-op, and the cell keeps region 5 instead of reverting to 0. -/
theorem undo_without_history_is_noop :
    ((Grid.init 2).recolor 0 0 5).history = [] ∧
    ((Grid.init 2).recolor 0 0 5).undo = (Grid.init 2).recolor 0 0 5 ∧
    colorAt (((Grid.init 2).recolor 0 0 5).undo) 0 0 = 5 := by
  exact ⟨by decide, by decide, by decide⟩

/-- C10: on any board whose placements list is empty (as after
construction or reset), `is_safe` returns true on every in-bounds cell,
and solve is exactly the region-only search over the board's coloring:
candidate columns are pruned only by the used-region set. -/
theorem is_safe_true_and_region_only_pruning (g : Grid) (hq : g.queen_positions = some []) :
    (∀ row col, row < g.grid_size → col < g.grid_size → g.is_safe row col = some true) ∧
    g.solve = some (applySolveResult g
      (regionSearch g.grid_size (colorAt g) g.grid_size 0 [] [])) := by
  constructor
  · intro row col _ _
    unfold Grid.is_safe
    rw [hq]
    rfl
  · rw [solve_of_qp_some hq, btRow_empty_stale]

/-- C10 witness: the statement applied to a fresh Grid(2) at cell (0, 1). -/
theorem is_safe_true_and_region_only_pruning_witness :
    (Grid.init 2).is_safe 0 1 = some true ∧
    (Grid.init 2).solve = some (applySolveResult (Grid.init 2)
      (regionSearch 2 (colorAt (Grid.init 2)) 2 0 [] [])) := by
  have h := is_safe_true_and_region_only_pruning (Grid.init 2) rfl
  exact ⟨h.1 0 1 (by decide) (by decide), h.2⟩
